import Mathlib

/-!
# Verification of the shed formatting pipeline

A shallow embedding of the core of the `shed` code formatter:

* `src/shed/__init__.py` — the top-level entry point `shed` (parse / version
  detection / black / codemods / ruff / final normalisation) and the embedded
  documentation formatter `docshed`;
* `src/shed/_codemods.py` — the `leave` matcher wrapper and the LibCST-based
  rewrite rules (here: `replace_unnecessary_nested_calls`).

External collaborators (black, ruff, com2ann, the lib2to3 parser combined with
black's target-version detection) are opaque `text -> text` functions in the
source; they are modelled as explicit function parameters collected in a
`ShedEnv` record, so every theorem quantifies over their behaviour or pins it
down by hypotheses that state the documented contract of the external pass.

The file is organised as definitions first, then the theorems about them.
-/

namespace Shed

/-! ## Python string primitives

`str.rstrip()` / `str.lstrip()` with no argument strip the ASCII whitespace
characters (we ignore the exotic unicode ones, which never show up here). -/

def pyIsSpace (c : Char) : Bool :=
  c = ' ' || c = '\t' || c = '\n' || c = '\r' || c = '\x0b' || c = '\x0c'

def rstripList (l : List Char) : List Char :=
  (l.reverse.dropWhile pyIsSpace).reverse

/-- Model of Python `str.rstrip()` (no argument). -/
def pyRstrip (s : String) : String := ⟨rstripList s.data⟩

/-- Model of Python `str.lstrip()` (no argument). -/
def pyLstrip (s : String) : String := ⟨s.data.dropWhile pyIsSpace⟩

/-! ## Version tuples

`shed` works with `(major, minor)` tuples ordered as Python orders tuples
(lexicographically); `_version_map` is the set of versions supported by the
installed black, every entry being `>= (3, 9)`. -/

/-- A `(major, minor)` language-version pair. -/
abbrev Ver := Nat × Nat

/-- Python `<=` on two-tuples of ints: lexicographic. -/
def verLe (a b : Ver) : Bool := a.1 < b.1 || (a.1 = b.1 && a.2 ≤ b.2)

/-- Python `max` of two versions (`max(min_version, v)` in the source). -/
def verMax (a b : Ver) : Ver := if verLe a b then b else a

/-- One step of the fold computing the minimum of a list of versions. -/
def verMinStep (a b : Ver) : Ver := if verLe a b then a else b

/-- Minimum of a list of versions; the source takes
`min(target_versions, key=attrgetter("value"))` over a set that is asserted
non-empty, and the enum-value order agrees with the tuple order on
`_version_map`.  The `[]` case is junk, guarded by that assertion. -/
def minVerList : List Ver → Ver
  | [] => (0, 0)
  | v :: rest => rest.foldl verMinStep v

/-! ## The `shed` entry point (`src/shed/__init__.py`, function `shed`)

The external collaborators invoked by `shed` are opaque `text -> text`
functions (spec §2: "pluggable external services with a narrow contract").
They are collected into a `ShedEnv` record:

* `parseDetect` models `lib2to3_parse(source_code.lstrip(), target_versions)`
  composed with `black.detect_target_versions(parsed)`: given the lstripped
  text and the attempted target-version set it returns `none` on a parse
  error and `some detected` on success, `detected` being the set of dialects
  the parsed tree is compatible with.
* `blackFormat` models `black.format_str(text, mode=black.Mode(
  target_versions=tv, is_pyi=is_pyi))`.
* `com2annF` models `com2ann(text, drop_ellipsis=True, silent=True,
  python_minor_version=k)`, returning `none` where com2ann returns `None`.
* `codemodsF` models `_run_codemods(text, min_version)`.
* `ruffF` models the `ruff check --fix-only` subprocess call, parameterised
  by the effective min version, the `F401` (remove-unused-imports) toggle
  and the first-party module list that shed puts on the command line.
* `shedRaise` models whether the `SHED_RAISE` environment variable is set.
-/

structure ShedEnv where
  versionMap : List Ver
  parseDetect : String → List Ver → Option (List Ver)
  blackFormat : List Ver → Bool → String → String
  com2annF : Nat → String → Option String
  codemodsF : Ver → String → String
  ruffF : Ver → Bool → List String → String → String
  sysMinor : Nat
  shedRaise : Bool

/-- `target_versions = {k for k, v in _version_map.items() if v >= min_version}`. -/
def compatibleTargets (versionMap : List Ver) (floor : Ver) : List Ver :=
  versionMap.filter (fun v => verLe floor v)

/-- `target_versions &= set(black.detect_target_versions(parsed))`. -/
def detectedTargets (versionMap : List Ver) (floor : Ver) (detected : List Ver) :
    List Ver :=
  (compatibleTargets versionMap floor).filter (fun v => decide (v ∈ detected))

/-- `min_version = max(min_version, _version_map[min(target_versions, key=...)])`. -/
def effectiveMinVersion (versionMap : List Ver) (floor : Ver) (detected : List Ver) :
    Ver :=
  verMax floor (minVerList (detectedTargets versionMap floor detected))

/-- The codemod stage: `if refactor and not is_pyi: source_code =
_run_codemods(source_code, min_version=min_version)`. -/
def codemodStage (refactor is_pyi : Bool) (cmF : Ver → String → String) (minV : Ver)
    (t : String) : String :=
  if refactor && !is_pyi then cmF minV t else t

/-- The com2ann stage of refactor mode: `source_code += "\n"` followed by
`annotated = com2ann(source_code, ...); if annotated: source_code, _ = annotated`. -/
def com2annStage (refactor : Bool) (c2aF : Nat → String → Option String)
    (sysMinor : Nat) (minV : Ver) (source : String) : String :=
  if refactor then
    let s2 := source ++ "\n"
    (c2aF (min minV.2 sysMinor) s2).getD s2
  else source

/-- Result of one call to `shed`.  `text` is the returned string; `warned`
records that `warnings.warn(ShedSyntaxWarning(...))` fired; `raised` records
that the warning was escalated to an exception (`SHED_RAISE`); `trace` logs,
in order, the name of every external pass invoked. -/
structure ShedOutcome where
  text : String
  warned : Bool
  raised : Bool
  trace : List String
  deriving Repr, DecidableEq

/-- The post-parse pipeline of `shed` (lines 193–264 of `__init__.py`):
com2ann (refactor only), black, the shed codemods (refactor and not pyi),
ruff, a second black run if codemods/ruff changed anything, and the final
`source_code.rstrip() + "\n"`.  Returns the final text together with the
`source_code != blackened` flag that decides the second black run. -/
def shedPipeline (env : ShedEnv) (refactor is_pyi : Bool) (firstParty : List String)
    (tv : List Ver) (minV : Ver) (removeUnusedImports : Bool) (source : String) :
    String × Bool :=
  let src1 := com2annStage refactor env.com2annF env.sysMinor minV source
  let blackened := env.blackFormat tv is_pyi src1
  let afterCm := codemodStage refactor is_pyi env.codemodsF minV blackened
  let afterRuff := env.ruffF minV removeUnusedImports firstParty afterCm
  -- `if source_code != blackened: source_code = black.format_str(...)`
  let final := if afterRuff = blackened then afterRuff
    else env.blackFormat tv is_pyi afterRuff
  (pyRstrip final ++ "\n", afterRuff ≠ blackened)

/-- Shallow embedding of `shed` (`src/shed/__init__.py`, lines 136–264),
instrumented with a trace of the external passes invoked.

The `assert` statements at the top of the function are preconditions carried
as hypotheses by the theorems below.  The parse-failure branch builds a
`ShedSyntaxWarning` and either raises it (`SHED_RAISE` in the environment) or
warns and returns the input unchanged; the suggestion regexes and the
`compile()` probe only affect the warning message text, which we do not
model. -/
def shedTraced (env : ShedEnv) (refactor is_pyi : Bool) (firstParty : List String)
    (minVersion : Ver) (removeUnusedImports : Bool) (source : String) : ShedOutcome :=
  if source = "" then ⟨"", false, false, []⟩
  else
    let tvs := compatibleTargets env.versionMap minVersion
    match env.parseDetect (pyLstrip source) tvs with
    | none => ⟨source, !env.shedRaise, env.shedRaise, []⟩
    | some detected =>
      let tv := detectedTargets env.versionMap minVersion detected
      let minV := effectiveMinVersion env.versionMap minVersion detected
      let res := shedPipeline env refactor is_pyi firstParty tv minV
        removeUnusedImports source
      ⟨res.1, false, false,
        (if refactor then ["com2ann"] else []) ++ ["black"]
          ++ (if refactor && !is_pyi then ["codemods"] else []) ++ ["ruff"]
          ++ (if res.2 then ["black"] else [])⟩

/-- The text returned by `shed` (ignoring the instrumentation). -/
def shedText (env : ShedEnv) (refactor is_pyi : Bool) (firstParty : List String)
    (minVersion : Ver) (removeUnusedImports : Bool) (source : String) : String :=
  (shedTraced env refactor is_pyi firstParty minVersion removeUnusedImports source).text

/-! ## The codemod rule engine (`src/shed/_codemods.py`)

A rule handler may raise a Python exception; we model handlers as
`Node → Except String Node`, an `Except.error` standing for an uncaught
exception.  `leaveWrap` is the `leave(matcher)` decorator wrapper:

```
def wrapped(self, original_node, updated_node):
    if not m.matches(updated_node, matcher):
        return updated_node
    return fn(self, original_node, updated_node)
```

Note that it contains no `try`/`except`: whatever `fn` raises propagates.
`applyRules` models LibCST dispatch chaining the decorated handlers for one
node, each receiving the previous handler's output; an exception propagates
out of `transform_module` and hence out of `_run_codemods`. -/

def leaveWrap {N E : Type} (matcher : N → Bool) (fn : N → Except E N) (updated : N) :
    Except E N :=
  if !(matcher updated) then Except.ok updated else fn updated

def applyRules {N E : Type} (rules : List (N → Except E N)) (node : N) : Except E N :=
  rules.foldlM (fun n r => r n) node

/-! ### A fragment of the LibCST expression model

Enough of LibCST's `BaseExpression` to state the nested-call rules: a `Name`
node, a `Call` node with a function expression and a list of arguments, and
an opaque leaf for everything the rules treat as a black box.  An argument
`cst.Arg` is modelled as `(value, keyword, star)`. -/

inductive Expr where
  | name (value : String) : Expr
  | call (func : Expr) (args : List (Expr × Option String × String)) : Expr
  | atom (tag : String) : Expr

abbrev PyArg := Expr × Option String × String

def argValue (a : PyArg) : Expr := a.1
def argKeyword (a : PyArg) : Option String := a.2.1
def argStar (a : PyArg) : String := a.2.2

/-- `m.Name(s)` for one of several names: `oneof_names(*names)`. -/
def isOneOfNames (names : List String) : Expr → Bool
  | .name s => names.contains s
  | _ => false

/-- `arg.keyword and arg.keyword.value == "key"` for some arg of the list. -/
def anyKeyArg (args : List PyArg) : Bool :=
  args.any fun a =>
    match argKeyword a with
    | some k => k = "key"
    | none => false

/-- `_sets = oneof_names("set", "frozenset")`. -/
def setNames : List String := ["set", "frozenset"]

/-- `_seqs = oneof_names("list", "sorted", "tuple")`. -/
def seqNames : List String := ["list", "sorted", "tuple"]

/-- The matcher of `replace_unnecessary_nested_calls`:

```
m.Call(func=_sets, args=[m.Arg(m.Call(func=_sets | _seqs | m.Name("reversed")), star="")])
| m.Call(func=oneof_names("list", "tuple"),
         args=[m.Arg(m.Call(func=oneof_names("list", "tuple")), star="")])
| m.Call(func=m.Name("sorted"), args=[m.Arg(m.Call(func=_seqs), star=""), m.ZeroOrMore()])
```
-/
def matchNestedCalls (e : Expr) : Bool :=
  match e with
  | .call f args =>
    (match args with
     | [a] =>
       (isOneOfNames setNames f
         && (match argValue a with
             | .call g _ => isOneOfNames (setNames ++ seqNames ++ ["reversed"]) g
             | _ => false)
         && argStar a = "")
       || (isOneOfNames ["list", "tuple"] f
         && (match argValue a with
             | .call g _ => isOneOfNames ["list", "tuple"] g
             | _ => false)
         && argStar a = "")
     | _ => false)
    || (match args with
        | a :: _ =>
          isOneOfNames ["sorted"] f
            && (match argValue a with
                | .call g _ => isOneOfNames seqNames g
                | _ => false)
            && argStar a = ""
        | [] => false)
  | _ => false

/-- Handler of `replace_unnecessary_nested_calls` (C414 fix).  Mirrors the
Python body; attribute/index accesses that can only fail on shapes the
registered matcher excludes are mapped to `Except.error` (an uncaught
`AttributeError`/`IndexError`):

```
if (updated_node.func.value == "sorted"
        and updated_node.args[0].value.func.value == "sorted"
        and any(arg.keyword and arg.keyword.value == "key"
                for args in (updated_node.args, updated_node.args[0].value.args)
                for arg in args)):
    return updated_node
return updated_node.with_changes(
    args=[cst.Arg(updated_node.args[0].value.args[0].value)] + list(updated_node.args[1:]))
```
-/
def replaceUnnecessaryNestedCalls (updated : Expr) : Except String Expr :=
  match updated with
  | .call f args =>
    match args with
    | [] => Except.error "IndexError"
    | a0 :: rest =>
      match argValue a0 with
      | .call g innerArgs =>
        if isOneOfNames ["sorted"] f && isOneOfNames ["sorted"] g
            && anyKeyArg (args ++ innerArgs) then
          Except.ok updated
        else
          match innerArgs with
          | [] => Except.error "IndexError"
          | i0 :: _ => Except.ok (.call f ((argValue i0, none, "") :: rest))
      | _ => Except.error "AttributeError"
  | _ => Except.error "AttributeError"

/-- The rule as registered through the `leave` decorator. -/
def nestedCallsRule : Expr → Except String Expr :=
  leaveWrap matchNestedCalls replaceUnnecessaryNestedCalls

/-! ## The embedded-documentation formatter (`docshed`, `__init__.py` 267–330)

`docshed` substitutes every match of `markdown_pattern` using `_md_match`.
`re.sub` rebuilds the string from the unmatched segments verbatim, so for a
document containing a single fenced block the result is: the text before the
match, then `_md_match`'s replacement, then the text after the match.  We
model the matched groups (`indent`, `before`, `code`, `after`) and the
surrounding text (`pre`, `suf`) explicitly, and embed `_md_match` itself:

```
def _md_match(match):
    code = textwrap.dedent(match["code"])
    code = format_code(code, _location=...)
    code = textwrap.indent(code, match["indent"])
    return f'{match["before"]}{code}{match["after"]}'
```

`format_code` is `shed` with the same options and
`_remove_unused_imports=False` (and `is_pyi` left at its default `False`).
`textwrap.dedent` / `textwrap.indent` are Python standard-library functions
(external to the repository); they are modelled below from their documented
semantics for `\n`-separated text. -/

/-- Split into lines, keeping the terminating `'\n'` of each line
(`str.splitlines(keepends=True)` restricted to `\n` linebreaks). -/
def splitLinesKeep : List Char → List (List Char)
  | [] => []
  | c :: rest =>
    match splitLinesKeep rest with
    | [] => [[c]]
    | line :: more =>
      if c = '\n' then [c] :: line :: more else (c :: line) :: more

def startsWithList : List Char → List Char → Bool
  | [], _ => true
  | _ :: _, [] => false
  | p :: ps, c :: cs => p = c && startsWithList ps cs

def commonPrefixList : List Char → List Char → List Char
  | x :: xs, y :: ys => if x = y then x :: commonPrefixList xs ys else []
  | _, _ => []

def isIndentChar (c : Char) : Bool := c = ' ' || c = '\t'

/-- Modelled from the Python standard library: `textwrap.dedent`.  Lines
consisting solely of spaces/tabs are normalised to empty; the margin is the
longest common leading space/tab run of the remaining non-empty lines and is
stripped from every line that starts with it. -/
def pyDedent (s : String) : String :=
  let lines := splitLinesKeep s.data
  let norm := lines.map fun line =>
    let content := line.takeWhile (fun c => c ≠ '\n')
    if !content.isEmpty && content.all isIndentChar then
      line.drop content.length
    else line
  let indents := norm.filterMap fun line =>
    let content := line.takeWhile (fun c => c ≠ '\n')
    if content.any (fun c => !isIndentChar c) then
      some (content.takeWhile isIndentChar)
    else none
  let margin := match indents with
    | [] => []
    | i :: rest => rest.foldl commonPrefixList i
  let stripped := norm.map fun line =>
    if startsWithList margin line then line.drop margin.length else line
  ⟨stripped.flatten⟩

/-- Modelled from the Python standard library: `textwrap.indent` with the
default predicate, which prefixes every line containing a non-whitespace
character. -/
def pyIndent (s pre : String) : String :=
  ⟨((splitLinesKeep s.data).map fun line =>
      if line.any (fun c => !pyIsSpace c) then pre.data ++ line else line).flatten⟩

/-- The replacement `_md_match` builds for one markdown match: the `before`
group (fence line), the dedented-formatted-reindented body, the `after`
group (closing fence). -/
def mdMatchRepl (env : ShedEnv) (refactor : Bool) (fpi : List String) (minV : Ver)
    (indentStr before code after : String) : String :=
  let code1 := pyDedent code
  let code2 := shedText env refactor false fpi minV false code1
  let code3 := pyIndent code2 indentStr
  before ++ code3 ++ after

/-- A documentation text containing a single fenced python block: prose
`pre`, opening fence `ind ++ "```python\n"`, block body `body`, closing
fence text `aft` (the `after` group: `ind ++ "```"` plus trailing
whitespace), and trailing text `suf`. -/
def mdDoc (pre ind body aft suf : String) : String :=
  pre ++ (ind ++ "```python\n") ++ body ++ aft ++ suf

/-! ### The markdown match scanner

`markdown_pattern` is

```
(?P<before>^(?P<indent> *)```python\n)(?P<code>.*?)(?P<after>^(?P=indent)```\s*$)
```

with `DOTALL | MULTILINE`.  Both anchors sit at line starts, the opening
fence line is exactly `indent ++ "```python"` followed by a newline, the
non-greedy `.*?` makes the body end at the *first* closing-fence line, and
a candidate opening fence with no closing fence yields no match there (the
scan moves on).  We implement exactly that line-based search.  One
simplification: the greedy `\s*$` tail of the `after` group may, in Python,
extend over the closing line's own newline into following blank lines; we
always end the `after` group at the closing line's newline.  The split
point lies inside whitespace that both the match and the unmatched suffix
reproduce verbatim, so the substitution result is identical. -/

/-- If `line` is an opening fence line ` *```python\n`, return its indent. -/
def fenceOpenIndent (line : List Char) : Option (List Char) :=
  let ind := line.takeWhile (fun c => c = ' ')
  if line = ind ++ ("```python\n").data then some ind else none

/-- Is `line` a closing fence line `indent```\s*$` for this indent? -/
def fenceCloseLine (ind : List Char) (line : List Char) : Bool :=
  startsWithList (ind ++ ("```").data) line
    && (line.drop (ind.length + 3)).all pyIsSpace

/-- Find the first closing-fence line; return the body lines before it, the
closing line, and the remaining lines. -/
def findFenceClose (ind : List Char) :
    List (List Char) → Option (List (List Char) × List Char × List (List Char))
  | [] => none
  | line :: rest =>
    if fenceCloseLine ind line then some ([], line, rest)
    else
      match findFenceClose ind rest with
      | none => none
      | some (codeLines, closeLine, r) => some (line :: codeLines, closeLine, r)

/-- Leftmost match of `markdown_pattern`: the first opening fence line that
has a matching closing fence line after it.  Returns the lines before the
match, the indent, the body lines, the closing line, and the lines after. -/
def findFenceOpen :
    List (List Char) →
      Option (List (List Char) × List Char × List (List Char) × List Char
        × List (List Char))
  | [] => none
  | line :: rest =>
    match fenceOpenIndent line with
    | some ind =>
      match findFenceClose ind rest with
      | some (codeLines, closeLine, r) => some ([], ind, codeLines, closeLine, r)
      | none =>
        match findFenceOpen rest with
        | none => none
        | some (pre, ind2, codeLines, closeLine, r) =>
          some (line :: pre, ind2, codeLines, closeLine, r)
    | none =>
      match findFenceOpen rest with
      | none => none
      | some (pre, ind2, codeLines, closeLine, r) =>
        some (line :: pre, ind2, codeLines, closeLine, r)

/-- The groups of the leftmost `markdown_pattern` match of a document:
`(pre, indent, code, after, suffix)`, as strings. -/
def mdFindMatch (doc : String) :
    Option (String × String × String × String × String) :=
  match findFenceOpen (splitLinesKeep doc.data) with
  | none => none
  | some (preLines, ind, codeLines, closeLine, restLines) =>
    some (⟨preLines.flatten⟩, ⟨ind⟩, ⟨codeLines.flatten⟩, ⟨closeLine⟩,
      ⟨restLines.flatten⟩)

/-- `markdown_pattern.sub(_md_match, doc)`, modelled for documents with at
most one match: the leftmost match is computed from the document and
replaced by `_md_match`'s output; the unmatched text around it is kept
verbatim, as `re.sub` does. -/
def mdSubModel (env : ShedEnv) (refactor : Bool) (fpi : List String) (minV : Ver)
    (doc : String) : String :=
  match mdFindMatch doc with
  | none => doc
  | some (pre, ind, code, aft, suf) =>
    pre ++ mdMatchRepl env refactor fpi minV ind (ind ++ "```python\n") code aft ++ suf

/-! ### The rst directive-block scanner and second substitution pass

`docshed` returns `rst_pattern.sub(_rst_match, markdown_pattern.sub(...))`:
the rst pass runs over the whole markdown-substituted text.  `rst_pattern`:

```
(?P<before>^(?P<indent> *)\.\. (?P<block>jupyter-execute::|
  invisible-code-block: python|
  (code|code-block|sourcecode|ipython):: (python|py|sage|python3|py3|numpy))\n
  ((?P=indent) +:.*\n)*\n*)
(?P<code>(^((?P=indent) +.*)?\n)+)
```

A match needs a directive header line, then option lines, blank lines, and
at least one body line (blank or further-indented).  The scanner below
assigns the option/blank/body runs by maximal munch; regex backtracking can
in rare cases reassign a trailing option line as the body, which this model
does not attempt — every theorem below uses the scanner only through
documents with no directive header line at all, where both agree that there
is no match. -/

/-- The alternation of directive headers in `rst_pattern`. -/
def rstDirectiveStrings : List String :=
  ["jupyter-execute::", "invisible-code-block: python"]
    ++ (["code", "code-block", "sourcecode", "ipython"].flatMap fun x =>
        ["python", "py", "sage", "python3", "py3", "numpy"].map fun y =>
          x ++ ":: " ++ y)

/-- If `line` is a directive header line ` *\.\. <directive>\n`, return its
indent. -/
def rstHeaderIndent (line : List Char) : Option (List Char) :=
  let ind := line.takeWhile (fun c => c = ' ')
  if rstDirectiveStrings.any (fun d => line = ind ++ (".. " ++ d ++ "\n").data) then
    some ind
  else none

/-- An option line `(?P=indent) +:.*\n`. -/
def rstOptionLine (ind line : List Char) : Bool :=
  startsWithList ind line
    && (let rest := line.drop ind.length
        let sp := rest.takeWhile (fun c => c = ' ')
        !sp.isEmpty
          && (match rest.drop sp.length with
              | ':' :: _ => true
              | _ => false))
    && line.getLast? = some '\n'

/-- A body line `((?P=indent) +.*)?\n`: blank, or further indented. -/
def rstBodyLine (ind line : List Char) : Bool :=
  line = ['\n']
    || (startsWithList ind line
        && (match line.drop ind.length with
            | ' ' :: _ => true
            | _ => false)
        && line.getLast? = some '\n')

/-- After a header line: the option-line run, the blank-line run, and the
body (failing if the body is empty). -/
def rstTakeBlock (ind : List Char) (lines : List (List Char)) :
    Option (List (List Char) × List (List Char) × List (List Char)) :=
  let opts := lines.takeWhile (rstOptionLine ind)
  let rest1 := lines.drop opts.length
  let blanks := rest1.takeWhile (fun l => l = ['\n'])
  let rest2 := rest1.drop blanks.length
  let body := rest2.takeWhile (rstBodyLine ind)
  if body.isEmpty then none
  else some (opts ++ blanks, body, rest2.drop body.length)

/-- Leftmost `rst_pattern` match: lines before, the `before` group's lines
(header, options, blanks), the `code` group's lines, and the rest. -/
def rstFindFrom :
    List (List Char) →
      Option (List (List Char) × List (List Char) × List (List Char)
        × List (List Char))
  | [] => none
  | line :: rest =>
    match rstHeaderIndent line with
    | some ind =>
      match rstTakeBlock ind rest with
      | some (btail, body, r) => some ([], line :: btail, body, r)
      | none =>
        match rstFindFrom rest with
        | none => none
        | some (pre, bf, body, r) => some (line :: pre, bf, body, r)
    | none =>
      match rstFindFrom rest with
      | none => none
      | some (pre, bf, body, r) => some (line :: pre, bf, body, r)

/-- The replacement `_rst_match` builds: minimum indent of the body's
indented lines (`indent_pattern.findall` then `min`, which in Python
raises on an all-blank body — junk-guarded here and unused by the
theorems), the trailing newline run, then
`before ++ indent(format(dedent(code)), min_indent).rstrip() ++ trailing`. -/
def rstMatchRepl (env : ShedEnv) (refactor : Bool) (fpi : List String) (minV : Ver)
    (code : String) : String :=
  let lines := splitLinesKeep code.data
  let indents := lines.filterMap fun line =>
    let sp := line.takeWhile (fun c => c = ' ')
    if !sp.isEmpty
        && (match line.drop sp.length with
            | c :: _ => !(c = ' ')
            | [] => false) then
      some sp
    else none
  let minIndent : List Char :=
    match indents with
    | [] => []
    | i :: rest => rest.foldl (fun a b => if a.length ≤ b.length then a else b) i
  let trailingWs : List Char := (code.data.reverse.takeWhile (fun c => c = '\n')).reverse
  let c1 := pyDedent code
  let c2 := shedText env refactor false fpi minV false c1
  let c3 := pyIndent c2 ⟨minIndent⟩
  pyRstrip c3 ++ ⟨trailingWs⟩

/-- `rst_pattern.sub(_rst_match, doc)`, modelled for documents with at most
one match. -/
def rstSubModel (env : ShedEnv) (refactor : Bool) (fpi : List String) (minV : Ver)
    (doc : String) : String :=
  match rstFindFrom (splitLinesKeep doc.data) with
  | none => doc
  | some (preLines, beforeLines, codeLines, restLines) =>
    ⟨preLines.flatten⟩ ++ ⟨beforeLines.flatten⟩
      ++ rstMatchRepl env refactor fpi minV ⟨codeLines.flatten⟩
      ++ ⟨restLines.flatten⟩

/-- Does the document contain any rst directive header line?  Every
`rst_pattern` match starts with one, so `false` means the rst pass is the
identity. -/
def hasRstHeader (doc : String) : Bool :=
  (splitLinesKeep doc.data).any fun line => (rstHeaderIndent line).isSome

/-- `docshed` (`__init__.py` line 330):
`rst_pattern.sub(_rst_match, markdown_pattern.sub(_md_match, source))`. -/
def docshedModel (env : ShedEnv) (refactor : Bool) (fpi : List String) (minV : Ver)
    (doc : String) : String :=
  rstSubModel env refactor fpi minV (mdSubModel env refactor fpi minV doc)

/-! ## Concrete instantiations used by witnesses and counterexamples -/

/-- A concrete supported-version table, as produced from black's
`TargetVersion` enum restricted to `>= PY39`. -/
def sampleVersionMap : List Ver := [(3, 9), (3, 10), (3, 11), (3, 12), (3, 13)]

/-- External passes that satisfy their documented contract: black normalises
trailing whitespace and is idempotent, com2ann and the codemods find nothing
to do, ruff reports no fixes. -/
def normEnv : ShedEnv where
  versionMap := sampleVersionMap
  parseDetect := fun _ _ => some sampleVersionMap
  blackFormat := fun _ _ s => pyRstrip s ++ "\n"
  com2annF := fun _ _ => none
  codemodsF := fun _ s => s
  ruffF := fun _ _ _ s => s
  sysMinor := 13
  shedRaise := false

/-- An environment whose ruff pass appends text on every run, so that no
fixed point is ever reached; black is the identity. -/
def growEnv : ShedEnv where
  versionMap := sampleVersionMap
  parseDetect := fun _ _ => some sampleVersionMap
  blackFormat := fun _ _ s => s
  com2annF := fun _ _ => none
  codemodsF := fun _ s => s
  ruffF := fun _ _ _ s => s ++ "x"
  sysMinor := 13
  shedRaise := false

/-- An environment that fails to parse everything except the inner code of
`pfDoc`'s fenced block, and whose ruff pass rewrites that code. -/
def pfEnv : ShedEnv where
  versionMap := sampleVersionMap
  parseDetect := fun s _ => if s = "print( 1 )\n" then some sampleVersionMap else none
  blackFormat := fun _ _ s => pyRstrip s ++ "\n"
  com2annF := fun _ _ => none
  codemodsF := fun _ s => s
  ruffF := fun _ _ _ _ => "print(1)"
  sysMinor := 13
  shedRaise := false

/-- A documentation text that is not valid Python but contains one fenced
python block. -/
def pfDoc : String := "```python\nprint( 1 )\n```\n"

/-- An environment whose passes each satisfy their documented contract in
isolation — black is idempotent and normalising, ruff is idempotent
(appending "!" only when the text does not already end in "!"), com2ann and
the codemods find nothing to do — but whose ruff fix is re-exposed after
black reformats its output, so the composition oscillates. -/
def oscEnv : ShedEnv where
  versionMap := sampleVersionMap
  parseDetect := fun _ _ => some sampleVersionMap
  blackFormat := fun _ _ s => pyRstrip s ++ "\n"
  com2annF := fun _ _ => none
  codemodsF := fun _ s => s
  ruffF := fun _ _ _ s => if s.data.getLast? = some '!' then s else s ++ "!"
  sysMinor := 13
  shedRaise := false

/-- A rule whose handler always raises, wrapped through `leave`. -/
def boomRule : Nat → Except String Nat :=
  leaveWrap (fun _ => true) (fun _ => Except.error "boom")

/-- A rule whose handler rewrites the node, wrapped through `leave`. -/
def incRule : Nat → Except String Nat :=
  leaveWrap (fun _ => true) (fun n => Except.ok (n + 1))

/-- `sorted(sorted(x))`, no keyword arguments. -/
def sortedSortedX : Expr :=
  .call (.name "sorted") [(.call (.name "sorted") [(.name "x", none, "")], none, "")]

/-! ## Helper lemmas: strings -/

theorem dropWhile_dropWhile (p : Char → Bool) (l : List Char) :
    (l.dropWhile p).dropWhile p = l.dropWhile p := by
  induction l with
  | nil => rfl
  | cons h t ih =>
    by_cases hp : p h
    · simpa [List.dropWhile_cons, hp] using ih
    · simp [List.dropWhile_cons, hp]

theorem rstripList_idem (l : List Char) : rstripList (rstripList l) = rstripList l := by
  simp [rstripList, dropWhile_dropWhile]

theorem pyIsSpace_newline : pyIsSpace '\n' = true := rfl

theorem rstripList_append_newline (l : List Char) :
    rstripList (l ++ ['\n']) = rstripList l := by
  simp [rstripList, List.reverse_append, List.dropWhile_cons, pyIsSpace_newline]

theorem data_append (a b : String) : (a ++ b).data = a.data ++ b.data := rfl

theorem pyRstrip_append_newline (s : String) : pyRstrip (s ++ "\n") = pyRstrip s := by
  show String.mk (rstripList (s.data ++ ['\n'])) = String.mk (rstripList s.data)
  rw [rstripList_append_newline]

theorem pyRstrip_idem (s : String) : pyRstrip (pyRstrip s) = pyRstrip s := by
  show String.mk (rstripList (rstripList s.data)) = String.mk (rstripList s.data)
  rw [rstripList_idem]

/-- Stripping trailing whitespace and re-appending one newline is a
normalisation: applying it to an already-normalised string is the identity. -/
theorem pyRstrip_norm_idem (s : String) :
    pyRstrip (pyRstrip s ++ "\n") ++ "\n" = pyRstrip s ++ "\n" := by
  rw [pyRstrip_append_newline, pyRstrip_idem]

theorem append_newline_ne_empty (s : String) : s ++ "\n" ≠ "" := by
  intro h
  have := congrArg (fun t => t.data.length) h
  simp [data_append] at this

theorem getLast_append_single (l : List Char) (c : Char) :
    (l ++ [c]).getLast? = some c := by
  induction l with
  | nil => rfl
  | cons a t ih =>
    rw [List.cons_append, List.getLast?_cons, ih]
    cases t <;> rfl

theorem data_getLast_append_newline (s : String) :
    (s ++ "\n").data.getLast? = some '\n' :=
  getLast_append_single s.data '\n'

theorem data_getLast_append_bang (s : String) :
    (s ++ "!").data.getLast? = some '!' :=
  getLast_append_single s.data '!'

/-! ## Helper lemmas: the version order -/

theorem verLe_refl (a : Ver) : verLe a a = true := by simp [verLe]

theorem verLe_trans {a b c : Ver} (h1 : verLe a b = true) (h2 : verLe b c = true) :
    verLe a c = true := by
  rcases a with ⟨a1, a2⟩; rcases b with ⟨b1, b2⟩; rcases c with ⟨c1, c2⟩
  simp only [verLe, Bool.or_eq_true, Bool.and_eq_true, decide_eq_true_eq] at h1 h2 ⊢
  omega

theorem verLe_total (a b : Ver) : verLe a b = true ∨ verLe b a = true := by
  rcases a with ⟨a1, a2⟩; rcases b with ⟨b1, b2⟩
  simp only [verLe, Bool.or_eq_true, Bool.and_eq_true, decide_eq_true_eq]
  omega

theorem verLe_antisymm {a b : Ver} (h1 : verLe a b = true) (h2 : verLe b a = true) :
    a = b := by
  rcases a with ⟨a1, a2⟩; rcases b with ⟨b1, b2⟩
  simp only [verLe, Bool.or_eq_true, Bool.and_eq_true, decide_eq_true_eq] at h1 h2
  simp only [Prod.mk.injEq]
  omega

theorem verLe_of_not {a b : Ver} (h : ¬ verLe a b = true) : verLe b a = true := by
  rcases verLe_total a b with h1 | h1
  · exact absurd h1 h
  · exact h1

theorem verMinStep_le_left (a b : Ver) : verLe (verMinStep a b) a = true := by
  unfold verMinStep
  by_cases h : verLe a b = true
  · simp [h, verLe_refl]
  · simp [h, verLe_of_not h]

theorem verMinStep_le_right (a b : Ver) : verLe (verMinStep a b) b = true := by
  unfold verMinStep
  by_cases h : verLe a b = true
  · simp [h]
  · simp [h, verLe_refl]

theorem minVerList_cons (v : Ver) (rest : List Ver) :
    minVerList (v :: rest) = rest.foldl verMinStep v := rfl

theorem foldl_verMinStep_mem (rest : List Ver) (v : Ver) :
    rest.foldl verMinStep v ∈ v :: rest := by
  induction rest generalizing v with
  | nil => simp
  | cons b t ih =>
    simp only [List.foldl_cons]
    rcases List.mem_cons.mp (ih (verMinStep v b)) with h | h
    · rw [h]
      unfold verMinStep
      by_cases hvb : verLe v b = true
      · simp [hvb]
      · simp only [hvb, if_neg, Bool.false_eq_true, not_false_iff, if_false]
        exact List.mem_cons_of_mem _ (List.mem_cons_self _ _)
    · exact List.mem_cons_of_mem _ (List.mem_cons_of_mem _ h)

theorem foldl_verMinStep_le_acc (rest : List Ver) (v : Ver) :
    verLe (rest.foldl verMinStep v) v = true := by
  induction rest generalizing v with
  | nil => exact verLe_refl v
  | cons b t ih =>
    simp only [List.foldl_cons]
    exact verLe_trans (ih (verMinStep v b)) (verMinStep_le_left v b)

theorem foldl_verMinStep_le_mem (rest : List Ver) (v x : Ver) (hx : x ∈ rest) :
    verLe (rest.foldl verMinStep v) x = true := by
  induction rest generalizing v with
  | nil => cases hx
  | cons b t ih =>
    simp only [List.foldl_cons]
    rcases List.mem_cons.mp hx with hxb | hxt
    · subst hxb
      exact verLe_trans (foldl_verMinStep_le_acc t (verMinStep v x)) (verMinStep_le_right v x)
    · exact ih (verMinStep v b) hxt

/-- `minVerList` of a non-empty list is an element of the list. -/
theorem minVerList_mem {l : List Ver} (h : l ≠ []) : minVerList l ∈ l := by
  cases l with
  | nil => exact absurd rfl h
  | cons v rest => exact minVerList_cons v rest ▸ foldl_verMinStep_mem rest v

/-- `minVerList` is a lower bound for every element of the list. -/
theorem minVerList_le {l : List Ver} {x : Ver} (hx : x ∈ l) :
    verLe (minVerList l) x = true := by
  cases l with
  | nil => cases hx
  | cons v rest =>
    rw [minVerList_cons]
    rcases List.mem_cons.mp hx with hxv | hxr
    · exact hxv ▸ foldl_verMinStep_le_acc rest v
    · exact foldl_verMinStep_le_mem rest v x hxr

theorem mem_detectedTargets {map : List Ver} {floor v : Ver} {detected : List Ver} :
    v ∈ detectedTargets map floor detected
      ↔ v ∈ map ∧ verLe floor v = true ∧ v ∈ detected := by
  simp only [detectedTargets, compatibleTargets, List.mem_filter, decide_eq_true_eq,
    and_assoc]

theorem verLe_verMax_left (a b : Ver) : verLe a (verMax a b) = true := by
  unfold verMax
  by_cases h : verLe a b = true
  · simp [h]
  · simp [h, verLe_refl]

/-! ## Helper lemmas: the documentation scanners -/

theorem splitLinesKeep_flatten (l : List Char) : (splitLinesKeep l).flatten = l := by
  induction l with
  | nil => rfl
  | cons c rest ih =>
    unfold splitLinesKeep
    cases hs : splitLinesKeep rest with
    | nil =>
      rw [hs] at ih
      simp only [List.flatten_nil] at ih
      simp [← ih]
    | cons line more =>
      rw [hs] at ih
      by_cases hc : c = '\n'
      · simp only [hc, if_pos]
        simp only [List.flatten_cons] at ih ⊢
        simp [ih]
      · simp only [hc, if_neg, not_false_iff]
        simp only [List.flatten_cons] at ih ⊢
        simp [ih]

theorem fenceOpenIndent_sound {line ind : List Char}
    (h : fenceOpenIndent line = some ind) :
    line = ind ++ ("```python\n").data := by
  unfold fenceOpenIndent at h
  by_cases hc : line = line.takeWhile (fun c => c = ' ') ++ ("```python\n").data
  · rw [if_pos hc] at h
    have := Option.some.inj h
    rw [← this]
    exact hc
  · rw [if_neg hc] at h
    cases h

theorem findFenceClose_sound {ind : List Char} :
    ∀ {lines codeL : List (List Char)} {closeL : List Char} {restL : List (List Char)},
      findFenceClose ind lines = some (codeL, closeL, restL) →
      lines = codeL ++ closeL :: restL := by
  intro lines
  induction lines with
  | nil => intro codeL closeL restL h; cases h
  | cons line tl ih =>
    intro codeL closeL restL h
    unfold findFenceClose at h
    by_cases hc : fenceCloseLine ind line = true
    · rw [if_pos hc] at h
      simp only [Option.some.injEq, Prod.mk.injEq] at h
      obtain ⟨h1, h2, h3⟩ := h
      subst h1 h2 h3
      rfl
    · rw [if_neg hc] at h
      cases hrec : findFenceClose ind tl with
      | none => rw [hrec] at h; cases h
      | some trip =>
        obtain ⟨c2, cl2, r2⟩ := trip
        rw [hrec] at h
        simp only [Option.some.injEq, Prod.mk.injEq] at h
        obtain ⟨h1, h2, h3⟩ := h
        subst h1 h2 h3
        rw [ih hrec, List.cons_append]

theorem findFenceOpen_sound :
    ∀ {lines preL : List (List Char)} {indL : List Char}
      {codeL : List (List Char)} {closeL : List Char} {restL : List (List Char)},
      findFenceOpen lines = some (preL, indL, codeL, closeL, restL) →
      lines = preL ++ (indL ++ ("```python\n").data) :: (codeL ++ closeL :: restL) := by
  intro lines
  induction lines with
  | nil => intro _ _ _ _ _ h; cases h
  | cons line tl ih =>
    intro preL indL codeL closeL restL h
    cases hop : fenceOpenIndent line with
    | some ind0 =>
      cases hcl : findFenceClose ind0 tl with
      | some trip =>
        obtain ⟨c2, cl2, r2⟩ := trip
        simp only [findFenceOpen, hop, hcl, Option.some.injEq, Prod.mk.injEq] at h
        obtain ⟨h1, h2, h3, h4, h5⟩ := h
        subst h1 h2 h3 h4 h5
        rw [List.nil_append, ← fenceOpenIndent_sound hop, findFenceClose_sound hcl]
      | none =>
        cases hrec : findFenceOpen tl with
        | none =>
          simp only [findFenceOpen, hop, hcl, hrec] at h
          cases h
        | some quint =>
          obtain ⟨p2, i2, c2, cl2, r2⟩ := quint
          simp only [findFenceOpen, hop, hcl, hrec, Option.some.injEq,
            Prod.mk.injEq] at h
          obtain ⟨h1, h2, h3, h4, h5⟩ := h
          subst h1 h2 h3 h4 h5
          rw [ih hrec, List.cons_append]
    | none =>
      cases hrec : findFenceOpen tl with
      | none =>
        simp only [findFenceOpen, hop, hrec] at h
        cases h
      | some quint =>
        obtain ⟨p2, i2, c2, cl2, r2⟩ := quint
        simp only [findFenceOpen, hop, hrec, Option.some.injEq, Prod.mk.injEq] at h
        obtain ⟨h1, h2, h3, h4, h5⟩ := h
        subst h1 h2 h3 h4 h5
        rw [ih hrec, List.cons_append]

/-- The markdown match groups reassemble to the document: the `pre`, fence,
`code`, `after` and `suffix` strings are the document's own text. -/
theorem mdFindMatch_sound {doc pre ind code aft suf : String}
    (h : mdFindMatch doc = some (pre, ind, code, aft, suf)) :
    doc = mdDoc pre ind code aft suf := by
  unfold mdFindMatch at h
  cases hf : findFenceOpen (splitLinesKeep doc.data) with
  | none => rw [hf] at h; cases h
  | some quint =>
    obtain ⟨preL, indL, codeL, closeL, restL⟩ := quint
    rw [hf] at h
    simp only [Option.some.injEq, Prod.mk.injEq] at h
    obtain ⟨h1, h2, h3, h4, h5⟩ := h
    subst h1 h2 h3 h4 h5
    have hlines := findFenceOpen_sound hf
    have hdata : doc.data
        = (((preL.flatten ++ (indL ++ ("```python\n").data)) ++ codeL.flatten)
            ++ closeL) ++ restL.flatten := by
      conv_lhs => rw [← splitLinesKeep_flatten doc.data, hlines]
      simp [List.flatten_append, List.flatten_cons, List.append_assoc]
    show doc = String.mk ((((preL.flatten ++ (indL ++ ("```python\n").data))
      ++ codeL.flatten) ++ closeL) ++ restL.flatten)
    rw [← hdata]

theorem rstFindFrom_eq_none {lines : List (List Char)}
    (h : (lines.any fun line => (rstHeaderIndent line).isSome) = false) :
    rstFindFrom lines = none := by
  induction lines with
  | nil => rfl
  | cons line tl ih =>
    simp only [List.any_cons, Bool.or_eq_false_iff] at h
    obtain ⟨h1, h2⟩ := h
    cases hh : rstHeaderIndent line with
    | some ind => rw [hh] at h1; cases h1
    | none => simp only [rstFindFrom, hh, ih h2]

/-- With no directive header line anywhere, the rst pass is the identity. -/
theorem rstSubModel_id (env : ShedEnv) (refactor : Bool) (fpi : List String)
    (minV : Ver) {doc : String} (h : hasRstHeader doc = false) :
    rstSubModel env refactor fpi minV doc = doc := by
  have h2 : rstFindFrom (splitLinesKeep doc.data) = none := rstFindFrom_eq_none h
  simp only [rstSubModel, h2]

/-! ## Unfolding the happy path of `shed` -/

theorem shedTraced_success (env : ShedEnv) (refactor is_pyi ru : Bool)
    (fpi : List String) (floor : Ver) (s : String) (det : List Ver)
    (hs : s ≠ "")
    (hparse : env.parseDetect (pyLstrip s) (compatibleTargets env.versionMap floor)
      = some det) :
    shedTraced env refactor is_pyi fpi floor ru s
      = ⟨(shedPipeline env refactor is_pyi fpi (detectedTargets env.versionMap floor det)
            (effectiveMinVersion env.versionMap floor det) ru s).1, false, false,
         (if refactor then ["com2ann"] else []) ++ ["black"]
           ++ (if refactor && !is_pyi then ["codemods"] else []) ++ ["ruff"]
           ++ (if (shedPipeline env refactor is_pyi fpi
                    (detectedTargets env.versionMap floor det)
                    (effectiveMinVersion env.versionMap floor det) ru s).2
               then ["black"] else [])⟩ := by
  unfold shedTraced
  rw [if_neg hs]
  simp only [hparse]

/-! ## Claim theorems -/

/-- C5: for the empty input string, `shed` returns the empty string
immediately — no warning, no escalation, and an empty pass trace (so no
formatting pass is invoked) — for every combination of `refactor`, `is_pyi`,
first-party modules and remove-unused-imports flag, every external
environment, and every supported `min_version` (the hypothesis is the
`assert min_version in _version_map.values()` precondition at the top of
`shed`). -/
theorem shed_empty_input (env : ShedEnv) (refactor is_pyi ru : Bool)
    (fpi : List String) (minVersion : Ver) (_hmv : minVersion ∈ env.versionMap) :
    shedTraced env refactor is_pyi fpi minVersion ru "" = ⟨"", false, false, []⟩ := rfl

theorem shed_empty_input_witness :
    (3, 9) ∈ normEnv.versionMap
      ∧ shedTraced normEnv true false [] (3, 9) true "" = ⟨"", false, false, []⟩ :=
  ⟨by decide, shed_empty_input normEnv true false true [] (3, 9) (by decide)⟩

/-- C10: for every non-empty input that parses, the text returned by `shed`
is a fixed point of "strip trailing whitespace, append one newline" (so it
has no trailing whitespace other than its final character) and its final
character is a newline: the `return source_code.rstrip() + "\n"` line. -/
theorem shed_output_normalised (env : ShedEnv) (refactor is_pyi ru : Bool)
    (fpi : List String) (floor : Ver) (s : String) (det : List Ver)
    (hs : s ≠ "")
    (hparse : env.parseDetect (pyLstrip s) (compatibleTargets env.versionMap floor)
      = some det) :
    pyRstrip (shedText env refactor is_pyi fpi floor ru s) ++ "\n"
        = shedText env refactor is_pyi fpi floor ru s
      ∧ (shedText env refactor is_pyi fpi floor ru s).data.getLast? = some '\n' := by
  have h : shedText env refactor is_pyi fpi floor ru s
      = (shedPipeline env refactor is_pyi fpi (detectedTargets env.versionMap floor det)
          (effectiveMinVersion env.versionMap floor det) ru s).1 := by
    rw [shedText, shedTraced_success env refactor is_pyi ru fpi floor s det hs hparse]
  rw [h]
  simp only [shedPipeline]
  exact ⟨pyRstrip_norm_idem _, data_getLast_append_newline _⟩

theorem shed_output_normalised_witness :
    ("a" : String) ≠ ""
      ∧ normEnv.parseDetect (pyLstrip "a") (compatibleTargets normEnv.versionMap (3, 9))
          = some sampleVersionMap
      ∧ pyRstrip (shedText normEnv false false [] (3, 9) true "a") ++ "\n"
          = shedText normEnv false false [] (3, 9) true "a"
      ∧ (shedText normEnv false false [] (3, 9) true "a").data.getLast? = some '\n' :=
  ⟨by decide, rfl,
    (shed_output_normalised normEnv false false true [] (3, 9) "a" sampleVersionMap
      (by decide) rfl).1,
    (shed_output_normalised normEnv false false true [] (3, 9) "a" sampleVersionMap
      (by decide) rfl).2⟩

/-- C3 (amended): when the input parses under no attempted dialect, `shed`
surfaces a `ShedSyntaxWarning` — escalated to an exception exactly when the
`SHED_RAISE` environment override is set — and returns the input text
unchanged without invoking any pass; it does not fall back to
documentation-style embedded-block scanning. -/
theorem shed_parse_failure_warns_returns_input (env : ShedEnv)
    (refactor is_pyi ru : Bool) (fpi : List String) (floor : Ver) (s : String)
    (hs : s ≠ "")
    (hparse : env.parseDetect (pyLstrip s) (compatibleTargets env.versionMap floor)
      = none) :
    shedTraced env refactor is_pyi fpi floor ru s
      = ⟨s, !env.shedRaise, env.shedRaise, []⟩ := by
  unfold shedTraced
  rw [if_neg hs]
  simp only [hparse]

theorem shed_parse_failure_witness :
    pfDoc ≠ ""
      ∧ pfEnv.parseDetect (pyLstrip pfDoc) (compatibleTargets pfEnv.versionMap (3, 9))
          = none
      ∧ shedTraced pfEnv false false [] (3, 9) true pfDoc = ⟨pfDoc, true, false, []⟩ :=
  ⟨by decide, by decide,
    shed_parse_failure_warns_returns_input pfEnv false false true [] (3, 9) pfDoc
      (by decide) (by decide)⟩

/-- C3 counterexample: on an unparseable documentation text, `shed` returns
the input unchanged (with a non-fatal warning), and this differs from what
the claimed salvage path — `docshed` applied to the same text — would have
produced, so no such recovery is applied. -/
theorem shed_no_salvage_cex :
    (shedTraced pfEnv false false [] (3, 9) true pfDoc).text = pfDoc
      ∧ (shedTraced pfEnv false false [] (3, 9) true pfDoc).warned = true
      ∧ (shedTraced pfEnv false false [] (3, 9) true pfDoc).raised = false
      ∧ docshedModel pfEnv false [] (3, 9) pfDoc
          ≠ (shedTraced pfEnv false false [] (3, 9) true pfDoc).text :=
  ⟨rfl, rfl, rfl, by decide⟩

/-- C4 (amended): the engine's `leave` wrapper contains no exception
handling: when a rule's handler raises on a node its matcher accepts, the
exception propagates and the codemod pass over that node aborts with the
error instead of keeping the pre-rule node and running the remaining
rules. -/
theorem rule_exception_aborts_pass {N E : Type} (matcher : N → Bool)
    (fn : N → Except E N) (rest : List (N → Except E N)) (node : N) (e : E)
    (hm : matcher node = true) (hfn : fn node = Except.error e) :
    applyRules (leaveWrap matcher fn :: rest) node = Except.error e := by
  have h1 : leaveWrap matcher fn node = Except.error e := by
    simp [leaveWrap, hm, hfn]
  show List.foldlM (fun n r => r n) node (leaveWrap matcher fn :: rest)
    = Except.error e
  rw [List.foldlM_cons, h1]
  rfl

theorem rule_exception_aborts_pass_witness :
    (fun _ : Nat => true) 0 = true
      ∧ (fun _ : Nat => (Except.error "boom" : Except String Nat)) 0
          = Except.error "boom"
      ∧ applyRules [leaveWrap (fun _ : Nat => true)
            (fun _ => (Except.error "boom" : Except String Nat)), incRule] 0
          = Except.error "boom" :=
  ⟨rfl, rfl,
    rule_exception_aborts_pass (fun _ => true) (fun _ => Except.error "boom")
      [incRule] 0 "boom" rfl rfl⟩

/-- C4 counterexample: with two rules registered, a handler exception in the
first rule makes the whole pass return the error — the second rule's rewrite
(which alone would produce `ok 1`) never happens — contradicting the claim
that the engine catches the exception, keeps the pre-rule node, and still
runs all other rules. -/
theorem rule_exception_cex :
    applyRules [boomRule, incRule] 0 = Except.error "boom"
      ∧ applyRules [incRule] 0 = Except.ok 1 := ⟨rfl, rfl⟩

/-- C7: a rule registered through the `leave` wrapper runs its handler only
when the matcher holds of the updated (post-child-rewrite, post-sibling-rule)
node; when the updated node no longer matches, that rule returns the node
unchanged. -/
theorem leave_reexamines_updated_node {N E : Type} (matcher : N → Bool)
    (fn : N → Except E N) (updated : N) :
    (matcher updated = false → leaveWrap matcher fn updated = Except.ok updated)
      ∧ (matcher updated = true → leaveWrap matcher fn updated = fn updated) := by
  constructor <;> intro h <;> simp [leaveWrap, h]

theorem leave_reexamines_updated_node_witness :
    (matchNestedCalls (Expr.name "x") = false
      ∧ leaveWrap matchNestedCalls replaceUnnecessaryNestedCalls (Expr.name "x")
          = Except.ok (Expr.name "x"))
      ∧ (matchNestedCalls sortedSortedX = true
        ∧ leaveWrap matchNestedCalls replaceUnnecessaryNestedCalls sortedSortedX
            = replaceUnnecessaryNestedCalls sortedSortedX) :=
  ⟨⟨rfl, (leave_reexamines_updated_node matchNestedCalls
      replaceUnnecessaryNestedCalls (Expr.name "x")).1 rfl⟩,
   ⟨rfl, (leave_reexamines_updated_node matchNestedCalls
      replaceUnnecessaryNestedCalls sortedSortedX).2 rfl⟩⟩

/-- C9: `docshed` on a documentation text whose single `markdown_pattern`
match is computed from the document itself (hypothesis `hmd`; `hone` states
the remainder holds no further fenced block, so this is the document's only
block) changes only the block body: the document reconstructs as
`pre ++ fence ++ code ++ after ++ suf` from the match's own groups (first
conjunct), and the output of `docshed` — the markdown substitution followed
by the rst substitution pass, which is the identity here since the
substituted text contains no rst directive header (hypothesis `hrst`) — is
the same document with only the body replaced by the pipeline's output on
the dedented body, re-indented to the block's indentation (second
conjunct).  The prose before, the opening fence line, the closing fence
with its trailing whitespace, and everything after the block are
byte-identical to the input. -/
theorem docshed_changes_only_block_body (env : ShedEnv) (refactor : Bool)
    (fpi : List String) (minV : Ver) (doc pre ind code aft suf : String)
    (hmd : mdFindMatch doc = some (pre, ind, code, aft, suf))
    (_hone : mdFindMatch suf = none)
    (hrst : hasRstHeader (mdSubModel env refactor fpi minV doc) = false) :
    doc = mdDoc pre ind code aft suf
      ∧ docshedModel env refactor fpi minV doc
        = mdDoc pre ind
            (pyIndent (shedText env refactor false fpi minV false (pyDedent code)) ind)
            aft suf := by
  constructor
  · exact mdFindMatch_sound hmd
  · unfold docshedModel
    rw [rstSubModel_id env refactor fpi minV hrst]
    simp only [mdSubModel, hmd]
    simp only [mdMatchRepl, mdDoc, String.append_assoc]

theorem docshed_changes_only_block_body_witness :
    mdFindMatch "t\n```python\nf( 1 )\n```\nu\n"
        = some ("t\n", "", "f( 1 )\n", "```\n", "u\n")
      ∧ mdFindMatch "u\n" = none
      ∧ hasRstHeader (mdSubModel normEnv false [] (3, 9) "t\n```python\nf( 1 )\n```\nu\n")
          = false
      ∧ ("t\n```python\nf( 1 )\n```\nu\n" : String)
          = mdDoc "t\n" "" "f( 1 )\n" "```\n" "u\n"
      ∧ docshedModel normEnv false [] (3, 9) "t\n```python\nf( 1 )\n```\nu\n"
        = mdDoc "t\n" ""
            (pyIndent (shedText normEnv false false [] (3, 9) false
              (pyDedent "f( 1 )\n")) "")
            "```\n" "u\n" :=
  ⟨by decide, by decide, by decide,
    (docshed_changes_only_block_body normEnv false [] (3, 9)
      "t\n```python\nf( 1 )\n```\nu\n" "t\n" "" "f( 1 )\n" "```\n" "u\n"
      (by decide) (by decide) (by decide)).1,
    (docshed_changes_only_block_body normEnv false [] (3, 9)
      "t\n```python\nf( 1 )\n```\nu\n" "t\n" "" "f( 1 )\n" "```\n" "u\n"
      (by decide) (by decide) (by decide)).2⟩

/-- C8: the nested-call collapse rule leaves `sorted(sorted(x, key=k))`
unchanged whenever any argument of the outer or the inner `sorted` call is a
`key=` keyword argument, and collapses `sorted(sorted(x))` with no key
arguments to `sorted(x)`. -/
theorem nested_sorted_guard :
    (∀ (innerArgs rest : List PyArg),
      anyKeyArg (((Expr.call (Expr.name "sorted") innerArgs, none, "") :: rest)
          ++ innerArgs) = true →
      nestedCallsRule (Expr.call (Expr.name "sorted")
          ((Expr.call (Expr.name "sorted") innerArgs, none, "") :: rest))
        = Except.ok (Expr.call (Expr.name "sorted")
            ((Expr.call (Expr.name "sorted") innerArgs, none, "") :: rest)))
      ∧ (∀ x : Expr,
        nestedCallsRule (Expr.call (Expr.name "sorted")
            [(Expr.call (Expr.name "sorted") [(x, none, "")], none, "")])
          = Except.ok (Expr.call (Expr.name "sorted") [(x, none, "")])) := by
  constructor
  · intro innerArgs rest hkey
    have hkey2 : anyKeyArg ((Expr.call (Expr.name "sorted") innerArgs, none, "")
        :: (rest ++ innerArgs)) = true := by
      simpa [List.cons_append] using hkey
    simp [nestedCallsRule, leaveWrap, matchNestedCalls, replaceUnnecessaryNestedCalls,
      isOneOfNames, seqNames, argValue, argStar, hkey2]
  · intro x
    rfl

theorem nested_sorted_guard_witness :
    anyKeyArg (((Expr.call (Expr.name "sorted")
          [(Expr.name "x", none, ""), (Expr.atom "k", some "key", "")], none, "") :: [])
        ++ [(Expr.name "x", none, ""), (Expr.atom "k", some "key", "")]) = true
      ∧ nestedCallsRule (Expr.call (Expr.name "sorted")
          ((Expr.call (Expr.name "sorted")
            [(Expr.name "x", none, ""), (Expr.atom "k", some "key", "")], none, "") :: []))
        = Except.ok (Expr.call (Expr.name "sorted")
          ((Expr.call (Expr.name "sorted")
            [(Expr.name "x", none, ""), (Expr.atom "k", some "key", "")], none, "") :: [])) :=
  ⟨rfl, nested_sorted_guard.1
    [(Expr.name "x", none, ""), (Expr.atom "k", some "key", "")] [] rfl⟩

/-- C6: after a successful parse, the effective minimum version equals
`max(caller floor, min(detected dialects))`, and in particular is never
below the caller-supplied floor.  Hypotheses: the intersected target set is
non-empty (the `assert target_versions` in the source), the floor is a
supported version (the `assert min_version in _version_map.values()`), the
detected set is upward-closed among supported versions (black's feature
detection accepts every newer dialect as well), and every detected dialect
is either below the floor or a supported version (the detected set is drawn
from the same enum as the version map). -/
theorem effective_min_version_spec (map : List Ver) (floor : Ver)
    (detected : List Ver)
    (hne : detectedTargets map floor detected ≠ [])
    (hfloor : floor ∈ map)
    (hup : ∀ v w, v ∈ detected → w ∈ map → verLe v w = true → w ∈ detected)
    (henum : ∀ v, v ∈ detected → verLe v floor = true ∨ v ∈ map) :
    effectiveMinVersion map floor detected = verMax floor (minVerList detected)
      ∧ verLe floor (effectiveMinVersion map floor detected) = true := by
  obtain ⟨m0, hm0⟩ := List.exists_mem_of_ne_nil _ hne
  have hm0' := mem_detectedTargets.mp hm0
  have hdetne : detected ≠ [] := by
    intro h
    rw [h] at hm0'
    exact absurd hm0'.2.2 (List.not_mem_nil m0)
  have hdmem : minVerList detected ∈ detected := minVerList_mem hdetne
  refine ⟨?_, verLe_verMax_left floor _⟩
  by_cases hcase : verLe (minVerList detected) floor = true
  · have hfd : floor ∈ detected := hup _ floor hdmem hfloor hcase
    have hfI : floor ∈ detectedTargets map floor detected :=
      mem_detectedTargets.mpr ⟨hfloor, verLe_refl floor, hfd⟩
    have hIfloor : minVerList (detectedTargets map floor detected) = floor := by
      refine verLe_antisymm (minVerList_le hfI) ?_
      exact (mem_detectedTargets.mp (minVerList_mem hne)).2.1
    have hL : effectiveMinVersion map floor detected = floor := by
      rw [effectiveMinVersion, hIfloor]
      unfold verMax
      simp [verLe_refl]
    have hR : verMax floor (minVerList detected) = floor := by
      unfold verMax
      by_cases h2 : verLe floor (minVerList detected) = true
      · rw [if_pos h2]
        exact verLe_antisymm hcase h2
      · rw [if_neg h2]
    rw [hL, hR]
  · have hfd : verLe floor (minVerList detected) = true := verLe_of_not hcase
    have hdmap : minVerList detected ∈ map := by
      rcases henum _ hdmem with h | h
      · exact absurd h hcase
      · exact h
    have hdI : minVerList detected ∈ detectedTargets map floor detected :=
      mem_detectedTargets.mpr ⟨hdmap, hfd, hdmem⟩
    have hImin : minVerList (detectedTargets map floor detected)
        = minVerList detected := by
      refine verLe_antisymm (minVerList_le hdI) ?_
      exact minVerList_le (mem_detectedTargets.mp (minVerList_mem hne)).2.2
    have hL : effectiveMinVersion map floor detected = minVerList detected := by
      rw [effectiveMinVersion, hImin]
      unfold verMax
      rw [if_pos hfd]
    have hR : verMax floor (minVerList detected) = minVerList detected := by
      unfold verMax
      rw [if_pos hfd]
    rw [hL, hR]

theorem effective_min_version_spec_witness :
    detectedTargets sampleVersionMap (3, 10) [(3, 11), (3, 12), (3, 13)] ≠ []
      ∧ (3, 10) ∈ sampleVersionMap
      ∧ effectiveMinVersion sampleVersionMap (3, 10) [(3, 11), (3, 12), (3, 13)]
          = verMax (3, 10) (minVerList [(3, 11), (3, 12), (3, 13)])
      ∧ verLe (3, 10)
          (effectiveMinVersion sampleVersionMap (3, 10) [(3, 11), (3, 12), (3, 13)])
          = true :=
  ⟨by decide, by decide,
    (effective_min_version_spec sampleVersionMap (3, 10) [(3, 11), (3, 12), (3, 13)]
      (by decide) (by decide)
      (by
        intro v w hv hw hvw
        fin_cases hv <;> fin_cases hw <;> revert hvw <;> decide)
      (by
        intro v hv
        fin_cases hv <;> decide)).1,
    (effective_min_version_spec sampleVersionMap (3, 10) [(3, 11), (3, 12), (3, 13)]
      (by decide) (by decide)
      (by
        intro v w hv hw hvw
        fin_cases hv <;> fin_cases hw <;> revert hvw <;> decide)
      (by
        intro v hv
        fin_cases hv <;> decide)).2⟩

/-- C2 (amended): `shed` never loops: for any input that parses, it runs the
pass sequence exactly once — com2ann at most once, the codemods at most
once, ruff exactly once, and the formatter at most twice (the second run
happening only when the codemod/ruff output differs from the formatted
baseline) — and returns normally without any iteration cap or fatal
error. -/
theorem trace_counts (r c b2 : Bool) :
    ((if r then ["com2ann"] else []) ++ ["black"] ++ (if c then ["codemods"] else [])
        ++ ["ruff"] ++ (if b2 then ["black"] else [])).count "ruff" = 1
      ∧ ((if r then ["com2ann"] else []) ++ ["black"] ++ (if c then ["codemods"] else [])
        ++ ["ruff"] ++ (if b2 then ["black"] else [])).count "black" ≤ 2
      ∧ ((if r then ["com2ann"] else []) ++ ["black"] ++ (if c then ["codemods"] else [])
        ++ ["ruff"] ++ (if b2 then ["black"] else [])).count "codemods" ≤ 1
      ∧ ((if r then ["com2ann"] else []) ++ ["black"] ++ (if c then ["codemods"] else [])
        ++ ["ruff"] ++ (if b2 then ["black"] else [])).count "com2ann" ≤ 1 := by
  cases r <;> cases c <;> cases b2 <;> exact ⟨by decide, by decide, by decide, by decide⟩

theorem shed_single_pass_sequence (env : ShedEnv) (refactor is_pyi ru : Bool)
    (fpi : List String) (floor : Ver) (s : String) (det : List Ver)
    (hs : s ≠ "")
    (hparse : env.parseDetect (pyLstrip s) (compatibleTargets env.versionMap floor)
      = some det) :
    (shedTraced env refactor is_pyi fpi floor ru s).raised = false
      ∧ (shedTraced env refactor is_pyi fpi floor ru s).trace.count "ruff" = 1
      ∧ (shedTraced env refactor is_pyi fpi floor ru s).trace.count "black" ≤ 2
      ∧ (shedTraced env refactor is_pyi fpi floor ru s).trace.count "codemods" ≤ 1
      ∧ (shedTraced env refactor is_pyi fpi floor ru s).trace.count "com2ann" ≤ 1 := by
  rw [shedTraced_success env refactor is_pyi ru fpi floor s det hs hparse]
  have h := trace_counts refactor (refactor && !is_pyi)
    (shedPipeline env refactor is_pyi fpi (detectedTargets env.versionMap floor det)
      (effectiveMinVersion env.versionMap floor det) ru s).2
  exact ⟨rfl, h.1, h.2.1, h.2.2.1, h.2.2.2⟩

theorem shed_single_pass_sequence_witness :
    ("a\n" : String) ≠ ""
      ∧ normEnv.parseDetect (pyLstrip "a\n")
          (compatibleTargets normEnv.versionMap (3, 9)) = some sampleVersionMap
      ∧ ((shedTraced normEnv true false [] (3, 9) true "a\n").raised = false
        ∧ (shedTraced normEnv true false [] (3, 9) true "a\n").trace.count "ruff" = 1
        ∧ (shedTraced normEnv true false [] (3, 9) true "a\n").trace.count "black" ≤ 2
        ∧ (shedTraced normEnv true false [] (3, 9) true "a\n").trace.count "codemods" ≤ 1
        ∧ (shedTraced normEnv true false [] (3, 9) true "a\n").trace.count "com2ann" ≤ 1) :=
  ⟨by decide, rfl,
    shed_single_pass_sequence normEnv true false true [] (3, 9) "a\n" sampleVersionMap
      (by decide) rfl⟩

/-- C2 counterexample: with a ruff pass that appends text on every run (so
the pass sequence has no fixed point), `shed` still terminates normally
after one pass — its output is not byte-identical to what one more run of
the codemod-plus-ruff sequence would produce, there is no iteration, no cap
and no fatal error — refuting the claim that the driver re-runs the sequence
whenever the text changed and terminates only at a fixed point or at a cap
treated as a fatal error. -/
theorem shed_no_convergence_loop_cex :
    (shedTraced growEnv false false [] (3, 9) true "a\n").raised = false
      ∧ growEnv.ruffF (3, 9) true []
          (codemodStage false false growEnv.codemodsF (3, 9)
            (shedText growEnv false false [] (3, 9) true "a\n"))
        ≠ shedText growEnv false false [] (3, 9) true "a\n" :=
  ⟨rfl, by decide⟩

/-- Every pass of `oscEnv` satisfies its documented contract in isolation:
black is idempotent and normalised (no trailing whitespace beyond its final
newline), ruff is idempotent, the codemods are idempotent, and com2ann
never rewrites.  (Used to show that these per-pass contracts do not make
the pipeline idempotent.) -/
theorem oscEnv_passes_contract :
    (∀ tv p y, oscEnv.blackFormat tv p (oscEnv.blackFormat tv p y)
        = oscEnv.blackFormat tv p y)
      ∧ (∀ tv p y, pyRstrip (oscEnv.blackFormat tv p y) ++ "\n"
        = oscEnv.blackFormat tv p y)
      ∧ (∀ v ru fp y, oscEnv.ruffF v ru fp (oscEnv.ruffF v ru fp y)
        = oscEnv.ruffF v ru fp y)
      ∧ (∀ v y, oscEnv.codemodsF v (oscEnv.codemodsF v y) = oscEnv.codemodsF v y)
      ∧ (∀ k y, oscEnv.com2annF k y = none) := by
  refine ⟨fun tv p y => pyRstrip_norm_idem y, fun tv p y => pyRstrip_norm_idem y,
    fun v ru fp y => ?_, fun v y => rfl, fun k y => rfl⟩
  simp only [oscEnv]
  by_cases h : y.data.getLast? = some '!'
  · simp [h]
  · simp [h, data_getLast_append_bang]

/-- C1 counterexample: with external passes each satisfying exactly their
documented contract — see `oscEnv`: black idempotent and normalising, ruff
idempotent in isolation, com2ann and the codemods doing nothing — the
formatter is not idempotent: `shed("a\n")` yields `"a\n!\n"` but running
`shed` again yields `"a\n!\n!\n"`.  Because the driver has no convergence
loop (C2), a ruff fix whose effect is re-exposed by the final reformat is
applied once more on every subsequent call, so per-pass idempotence does
not make the composition idempotent. -/
theorem shed_not_idempotent_cex :
    shedText oscEnv false false [] (3, 9) true
        (shedText oscEnv false false [] (3, 9) true "a\n")
      ≠ shedText oscEnv false false [] (3, 9) true "a\n" := by
  decide

/-- C1 (amended): idempotence of the top-level formatter, for every option
combination (`refactor`, `is_pyi`, first-party modules,
remove-unused-imports) and every floor version, under a joint contract of
the external passes that is strictly stronger than idempotence of each pass
in isolation (which does not suffice — see the counterexample):

* `hbn` / `hbi` / `hbin`: black output carries no trailing whitespace beyond
  its final newline, and black is idempotent (also across one appended
  newline);
* `hc2a`: com2ann finds nothing to rewrite in already-formatted output;
* `hfix`: one round of codemods+ruff on freshly formatted text, reformatted,
  is a joint fixed point of codemods+ruff (the "independent passes converge
  after one round" expectation of the external tools);
* `hparse2` / `htv2` / `hminV2`: the output parses again, with the same
  detected target-version set and hence the same effective minimum version.

`tv` and `minV` name the detected target set and effective minimum version
of the first run. -/
theorem shed_idempotent (env : ShedEnv) (refactor is_pyi ru : Bool)
    (fpi : List String) (floor : Ver) (s : String) (det det2 : List Ver)
    (tv : List Ver) (minV : Ver)
    (hs : s ≠ "")
    (hparse : env.parseDetect (pyLstrip s) (compatibleTargets env.versionMap floor)
      = some det)
    (htv : tv = detectedTargets env.versionMap floor det)
    (hminV : minV = effectiveMinVersion env.versionMap floor det)
    (hparse2 : env.parseDetect (pyLstrip (shedText env refactor is_pyi fpi floor ru s))
        (compatibleTargets env.versionMap floor) = some det2)
    (htv2 : detectedTargets env.versionMap floor det2 = tv)
    (hminV2 : effectiveMinVersion env.versionMap floor det2 = minV)
    (hbn : ∀ y, pyRstrip (env.blackFormat tv is_pyi y) ++ "\n"
      = env.blackFormat tv is_pyi y)
    (hbi : ∀ y, env.blackFormat tv is_pyi (env.blackFormat tv is_pyi y)
      = env.blackFormat tv is_pyi y)
    (hbin : ∀ y, env.blackFormat tv is_pyi (env.blackFormat tv is_pyi y ++ "\n")
      = env.blackFormat tv is_pyi y)
    (hc2a : ∀ y, (env.com2annF (min minV.2 env.sysMinor)
          (env.blackFormat tv is_pyi y ++ "\n")).getD
          (env.blackFormat tv is_pyi y ++ "\n")
      = env.blackFormat tv is_pyi y ++ "\n")
    (hfix : ∀ y, env.ruffF minV ru fpi (codemodStage refactor is_pyi env.codemodsF minV
          (env.blackFormat tv is_pyi (env.ruffF minV ru fpi
            (codemodStage refactor is_pyi env.codemodsF minV
              (env.blackFormat tv is_pyi y)))))
      = env.blackFormat tv is_pyi (env.ruffF minV ru fpi
          (codemodStage refactor is_pyi env.codemodsF minV
            (env.blackFormat tv is_pyi y)))) :
    shedText env refactor is_pyi fpi floor ru (shedText env refactor is_pyi fpi floor ru s)
      = shedText env refactor is_pyi fpi floor ru s := by
  obtain ⟨src1, hsrc1⟩ : ∃ u, com2annStage refactor env.com2annF env.sysMinor minV s = u :=
    ⟨_, rfl⟩
  obtain ⟨b, hb⟩ : ∃ u, env.blackFormat tv is_pyi src1 = u := ⟨_, rfl⟩
  obtain ⟨r, hr⟩ : ∃ u,
      env.ruffF minV ru fpi (codemodStage refactor is_pyi env.codemodsF minV b) = u :=
    ⟨_, rfl⟩
  set x := if r = b then r else env.blackFormat tv is_pyi r with hx
  -- first run
  have hout : shedText env refactor is_pyi fpi floor ru s = pyRstrip x ++ "\n" := by
    rw [shedText, shedTraced_success env refactor is_pyi ru fpi floor s det hs hparse,
      ← htv, ← hminV]
    show (shedPipeline env refactor is_pyi fpi tv minV ru s).1 = pyRstrip x ++ "\n"
    simp only [shedPipeline]
    rw [hsrc1, hb, hr]
  -- the final text of the first run is in black's image
  have hxb : ∃ y0, x = env.blackFormat tv is_pyi y0 := by
    by_cases hrb : r = b
    · exact ⟨src1, by rw [hx, if_pos hrb, hrb, ← hb]⟩
    · exact ⟨r, by rw [hx, if_neg hrb]⟩
  have hout2 : shedText env refactor is_pyi fpi floor ru s = x := by
    obtain ⟨y0, hy0⟩ := hxb
    rw [hout, hy0, hbn y0]
  -- second run
  have hne2 : shedText env refactor is_pyi fpi floor ru s ≠ "" := by
    rw [hout]
    exact append_newline_ne_empty _
  have hrun2 : shedText env refactor is_pyi fpi floor ru
        (shedText env refactor is_pyi fpi floor ru s)
      = (shedPipeline env refactor is_pyi fpi tv minV ru
          (shedText env refactor is_pyi fpi floor ru s)).1 := by
    rw [shedText, shedTraced_success env refactor is_pyi ru fpi floor _ det2 hne2 hparse2,
      htv2, hminV2]
  -- com2ann does nothing to the first run's output
  have hsrc12 : com2annStage refactor env.com2annF env.sysMinor minV
        (shedText env refactor is_pyi fpi floor ru s)
      = if refactor then x ++ "\n" else x := by
    obtain ⟨y0, hy0⟩ := hxb
    cases refactor
    · simp [com2annStage, hout2]
    · simp only [com2annStage, if_pos, hout2, hy0]
      rw [hc2a y0]
  -- the second black run reproduces the first run's output
  have hb2 : env.blackFormat tv is_pyi
        (com2annStage refactor env.com2annF env.sysMinor minV
          (shedText env refactor is_pyi fpi floor ru s))
      = x := by
    obtain ⟨y0, hy0⟩ := hxb
    rw [hsrc12]
    cases refactor
    · rw [if_neg (by simp), hy0, hbi y0]
    · rw [if_pos rfl, hy0, hbin y0]
  -- codemods+ruff find nothing more to do
  have hGx : env.ruffF minV ru fpi (codemodStage refactor is_pyi env.codemodsF minV x)
      = x := by
    by_cases hrb : r = b
    · have hxr : x = b := by rw [hx, if_pos hrb, hrb]
      rw [hxr, hr, hrb]
    · have hxr : x = env.blackFormat tv is_pyi r := by rw [hx, if_neg hrb]
      rw [hxr, ← hr, ← hb]
      exact hfix src1
  rw [hrun2]
  show (shedPipeline env refactor is_pyi fpi tv minV ru
      (shedText env refactor is_pyi fpi floor ru s)).1
    = shedText env refactor is_pyi fpi floor ru s
  simp only [shedPipeline]
  rw [hb2, hGx, if_pos rfl, hout]

theorem shed_idempotent_witness :
    shedText normEnv true false [] (3, 9) true
        (shedText normEnv true false [] (3, 9) true "a\n")
      = shedText normEnv true false [] (3, 9) true "a\n" :=
  shed_idempotent normEnv true false true [] (3, 9) "a\n" sampleVersionMap
    sampleVersionMap sampleVersionMap (3, 9)
    (by decide) rfl (by decide) (by decide) rfl (by decide) (by decide)
    (fun y => pyRstrip_norm_idem y)
    (fun y => pyRstrip_norm_idem y)
    (fun y => by
      show pyRstrip ((pyRstrip y ++ "\n") ++ "\n") ++ "\n" = pyRstrip y ++ "\n"
      rw [pyRstrip_append_newline, pyRstrip_append_newline, pyRstrip_idem])
    (fun _ => rfl)
    (fun _ => rfl)

end Shed
